import Mathlib

/-!
Verification of the Hocuspocus server kernel (`packages/server/src/Hocuspocus.ts`)
against its natural-language specification.

The TypeScript source is shallowly embedded: JavaScript `Map`s become
association lists with `Map.set` replace semantics, promise chains become
`Except`-valued computations together with explicit effect traces, and the
asynchronous interleavings of the handshake / registry code become explicit
transition systems whose events mark the `await` boundaries of the source.
-/

set_option maxRecDepth 4096

/-! ## Association-list helpers (JavaScript `Map` / plain-object records) -/

/-- `Map.get` / object indexing: first binding for the key, if any. -/
def lookupKey {β : Type} : List (String × β) → String → Option β
  | [], _ => none
  | (k, v) :: rest, key => if k = key then some v else lookupKey rest key

/-- `Map.set` / object assignment: replace the existing binding in place,
otherwise append a new binding. -/
def insertKey {β : Type} : List (String × β) → String → β → List (String × β)
  | [], key, v => [(key, v)]
  | (k, w) :: rest, key, v =>
    if k = key then (key, v) :: rest else (k, w) :: insertKey rest key v

/-- `Map.delete` / the `delete` operator: drop every binding for the key. -/
def eraseKey {β : Type} : List (String × β) → String → List (String × β)
  | [], _ => []
  | (k, v) :: rest, key =>
    if k = key then eraseKey rest key else (k, v) :: eraseKey rest key

/-! ## Hook errors and close codes

Hook handlers reject with a value shaped `{code?, reason?, message?}`
(spec §6, "Hook contract"); a rejection with the JavaScript value
`undefined` is modelled as `none : Option HookError`. -/

/-- The `{code?, reason?, message?}` record a hook handler may reject with. -/
structure HookError where
  code : Option Nat
  reason : Option String
  message : Option String
deriving DecidableEq, Repr

/-- JavaScript truthiness of `error?.message`: the rejection value is present
and carries a non-empty message string. -/
def errHasMessage : Option HookError → Bool
  | none => false
  | some e =>
    match e.message with
    | none => false
    | some m => m ≠ ""

/-- A close code, a `{code, reason}` pair (spec §6, "Close codes"). -/
structure CloseCode where
  code : Nat
  reason : String
deriving DecidableEq, Repr

/-- Modelled from the spec: the numeric values of the `Unauthorized` constant
live in `@hocuspocus/common`, which is not part of the sources; the spec only
states that the close codes are distinct named `{code, reason}` pairs. -/
def Unauthorized : CloseCode := ⟨4401, "UNAUTHORIZED"⟩

/-- Modelled from the spec: the numeric values of the `Forbidden` constant
live in `@hocuspocus/common`, which is not part of the sources. -/
def Forbidden : CloseCode := ⟨4403, "FORBIDDEN"⟩

/-- Modelled from the spec: the numeric values of the `ResetConnection`
constant live in `@hocuspocus/common`, which is not part of the sources. -/
def ResetConnection : CloseCode := ⟨4205, "RESET"⟩

/-! ## The debouncer (`Hocuspocus.debounce`, source lines 619-652)

`this.timers` is a `Map` from id to `{timeout, start}`.  A pending
`setTimeout` handle is modelled by the absolute time at which it would fire;
an entry present in the map is exactly a pending timer.  `clearTimeout`
followed by `timers.delete` / `timers.set` is what the code always does, so
cancellation is captured by erasing or replacing the entry. -/

/-- One entry of `this.timers`: `{start, timeout}` with the timeout handle
modelled by its scheduled absolute fire time. -/
structure DebounceTimer where
  start : Nat
  fireAt : Nat
deriving DecidableEq, Repr

/-- Result of one call to `debounce`: the updated `this.timers` map, whether
`func` was run synchronously during the call, and the absolute time at which
the freshly scheduled timer would fire, if one was scheduled. -/
structure DebounceResult where
  timers : List (String × DebounceTimer)
  ranNow : Bool
  scheduledAt : Option Nat
deriving DecidableEq, Repr

/-- `Hocuspocus.debounce(id, func, immediately)` (source lines 627-652).
`old?.start || Date.now()` is JavaScript falsy selection, hence the explicit
comparison of the stored start with `0`.  The `Date.now() - start` comparison
is done over `Int`, as JavaScript arithmetic is. -/
def debounceStep (maxDebounce debounceMs : Nat)
    (timers : List (String × DebounceTimer)) (now : Nat) (id : String)
    (immediately : Bool) : DebounceResult :=
  let old := lookupKey timers id
  let start : Nat :=
    match old with
    | some o => if o.start = 0 then now else o.start
    | none => now
  if immediately then
    ⟨eraseKey timers id, true, none⟩
  else if (maxDebounce : Int) ≤ (now : Int) - (start : Int) then
    ⟨eraseKey timers id, true, none⟩
  else
    ⟨insertKey timers id ⟨start, now + debounceMs⟩, false, some (now + debounceMs)⟩

/-! ## The update + persistence pipeline

Effect traces for `handleDocumentUpdate` (source lines 582-617) and the
disconnect path installed by `createConnection` (source lines 742-797). -/

/-- Observable effects of the update / disconnect pipelines. -/
inductive KernelEffect where
  | ranOnChange
  | debounceCalled (key : String)
  | debouncedImmediate (key : String)
  | ranOnDisconnect
  | ranOnStoreDocument
  | ranAfterStoreDocument
  | removedFromRegistry
  | destroyedDocument
deriving DecidableEq, Repr

/-- The closure passed to `debounce` by `handleDocumentUpdate`
(source lines 606-616):
`hooks('onStoreDocument').catch(e => { if (e?.message) throw e })
 .then(() => hooks('afterStoreDocument'))`.
Returns the effect trace and the error escaping the promise chain, if any. -/
def onStoreDocumentChain (storeResult afterResult : Except (Option HookError) Unit) :
    List KernelEffect × Option (Option HookError) :=
  match storeResult with
  | Except.error e =>
    if errHasMessage e then
      ([KernelEffect.ranOnStoreDocument], some e)
    else
      (KernelEffect.ranOnStoreDocument :: KernelEffect.ranAfterStoreDocument :: [],
        match afterResult with
        | Except.error a => some a
        | Except.ok _ => none)
  | Except.ok _ =>
    (KernelEffect.ranOnStoreDocument :: KernelEffect.ranAfterStoreDocument :: [],
      match afterResult with
      | Except.error a => some a
      | Except.ok _ => none)

/-- `Hocuspocus.handleDocumentUpdate` (source lines 582-617): run the
`onChange` hook; when the update carried no origin `Connection`, return before
any persistence scheduling; otherwise call
`debounce('onStoreDocument-' + document.name, …)` non-immediately.
`conn` is the `connection: Connection | undefined` argument, reduced to the
only fact the control flow reads: whether it is present. -/
def handleDocumentUpdate (conn : Option Nat) (documentName : String)
    (maxDebounce debounceMs : Nat) (timers : List (String × DebounceTimer))
    (now : Nat) : List KernelEffect × List (String × DebounceTimer) :=
  match conn with
  | none => ([KernelEffect.ranOnChange], timers)
  | some _ =>
    let key := "onStoreDocument-" ++ documentName
    let r := debounceStep maxDebounce debounceMs timers now key false
    ([KernelEffect.ranOnChange, KernelEffect.debounceCalled key], r.timers)

/-- The closure passed to `debounce(…, true)` by the disconnect path
(source lines 769-788): like `onStoreDocumentChain` but the
`afterStoreDocument` continuation additionally rechecks the connection count
and removes and destroys the document when it is still `0`. -/
def storeFlushChain (storeResult afterResult : Except (Option HookError) Unit)
    (countAfterStore : Nat) : List KernelEffect :=
  KernelEffect.ranOnStoreDocument ::
    (match storeResult with
     | Except.error e =>
       if errHasMessage e then []
       else
         KernelEffect.ranAfterStoreDocument ::
           (match afterResult with
            | Except.error _ => []
            | Except.ok _ =>
              if countAfterStore > 0 then []
              else [KernelEffect.removedFromRegistry, KernelEffect.destroyedDocument])
     | Except.ok _ =>
       KernelEffect.ranAfterStoreDocument ::
         (match afterResult with
          | Except.error _ => []
          | Except.ok _ =>
            if countAfterStore > 0 then []
            else [KernelEffect.removedFromRegistry, KernelEffect.destroyedDocument]))

/-- The `instance.onClose` handler installed by `createConnection`
(source lines 742-797).  Parameters snapshot the values the code reads at its
`await` boundaries: `disconnectResult` is the outcome of the `onDisconnect`
hook chain, `countAfterDisconnect` is `document.getConnectionsCount()` when
that chain resolves, `storeResult` / `afterResult` are the outcomes of the
store hooks, and `countAfterStore` is the rechecked connection count inside
the `afterStoreDocument` continuation.  Returns the effect trace and the
updated debounce timer map. -/
def connectionOnClose (documentName : String) (isLoading : Bool)
    (disconnectResult : Except (Option HookError) Unit)
    (countAfterDisconnect : Nat)
    (storeResult afterResult : Except (Option HookError) Unit)
    (countAfterStore : Nat)
    (maxDebounce debounceMs : Nat) (timers : List (String × DebounceTimer))
    (now : Nat) : List KernelEffect × List (String × DebounceTimer) :=
  match disconnectResult with
  | Except.error _ => ([KernelEffect.ranOnDisconnect], timers)
  | Except.ok _ =>
    if countAfterDisconnect > 0 then
      ([KernelEffect.ranOnDisconnect], timers)
    else if isLoading then
      ([KernelEffect.ranOnDisconnect, KernelEffect.removedFromRegistry,
        KernelEffect.destroyedDocument], timers)
    else
      let key := "onStoreDocument-" ++ documentName
      let r := debounceStep maxDebounce debounceMs timers now key true
      (KernelEffect.ranOnDisconnect :: KernelEffect.debouncedImmediate key ::
        storeFlushChain storeResult afterResult countAfterStore, r.timers)

/-! ## Close-code fallback on hook rejection

Two rejection paths close the raw websocket: the `onConnect` rejection path
in `messageHandler` (source lines 555-564) and the `onAuthenticate` rejection
path in `handleQueueingMessage` (source lines 493-515).  Both arrive in a
`.catch((error = Forbidden) => …)`, so a rejection with `undefined` defaults
to the `Forbidden` constant; both first try
`incoming.close(error.code ?? Forbidden.code, error.reason ?? Forbidden.reason)`
and, when that throws because the hook-supplied code is invalid for the
transport, fall back to a hard-coded close.  `firstCloseThrows` is that
"the close call throws" condition. -/

/-- The `Forbidden` constant seen as a rejection value, as the
`(error = Forbidden)` default parameter produces it. -/
def forbiddenAsError : HookError := ⟨some Forbidden.code, some Forbidden.reason, none⟩

/-- The `{code, reason}` pair actually passed to `incoming.close` by the
`onConnect` rejection path (source lines 555-564). -/
def onConnectRejectionClose (e : Option HookError) (firstCloseThrows : Bool) :
    CloseCode :=
  let err := e.getD forbiddenAsError
  if firstCloseThrows then
    ⟨Unauthorized.code, Unauthorized.reason⟩
  else
    ⟨err.code.getD Forbidden.code, err.reason.getD Forbidden.reason⟩

/-- The `{code, reason}` pair actually passed to `incoming.close` by the
`onAuthenticate` rejection path (source lines 504-514). -/
def authRejectionClose (e : Option HookError) (firstCloseThrows : Bool) :
    CloseCode :=
  let err := e.getD forbiddenAsError
  if firstCloseThrows then
    ⟨Forbidden.code, Forbidden.reason⟩
  else
    ⟨err.code.getD Forbidden.code, err.reason.getD Forbidden.reason⟩

/-- Observable effects of the `onAuthenticate` rejection path. -/
inductive AuthFailEffect where
  | sentPermissionDenied (reason : String)
  | closedTransport (close : CloseCode)
deriving DecidableEq, Repr

/-- The whole `onAuthenticate` `.catch` branch (source lines 493-515): send a
`PermissionDenied` outgoing message with `error.reason ?? 'permission-denied'`
and, once the send completed and only when no document has an attached
`Connection` on this transport, close the websocket with the fallback logic
of `authRejectionClose`. -/
def authRejectionEffects (e : Option HookError) (documentConnectionsEmpty : Bool)
    (firstCloseThrows : Bool) : List AuthFailEffect :=
  let err := e.getD forbiddenAsError
  AuthFailEffect.sentPermissionDenied (err.reason.getD "permission-denied") ::
    (if documentConnectionsEmpty then
      [AuthFailEffect.closedTransport (authRejectionClose e firstCloseThrows)]
    else [])

/-! ## The hook pipeline (`Hocuspocus.hooks`, source lines 841-870)

`hooks(name, payload, callback)` filters the configured extensions down to
those defining a handler for `name` and folds a promise chain over them:
`chain.then(() => handler(payload)).catch(log-and-rethrow)` and, when a
callback was supplied, `chain.then(args => callback(args))`.

An extension is embedded as the behaviour of its handler for the hook under
consideration: `none` when the extension does not define the handler
(filtered out), `some r` with `r` the settled outcome of awaiting the
handler.  The caller-supplied callback is a function on the handler's return
value that may itself reject.  The trace records, in execution order, which
extension indices ran and which callbacks ran. -/

/-- One trace entry of a `hooks` chain: extension `i`'s handler ran, or the
per-hook callback ran on extension `i`'s return value `v`. -/
inductive HookEvent (α : Type) where
  | ran (i : Nat)
  | callbackRan (i : Nat) (v : α)
deriving DecidableEq, Repr

/-- The extension index a trace entry concerns. -/
def HookEvent.idx {α : Type} : HookEvent α → Nat
  | .ran i => i
  | .callbackRan i _ => i

/-- The promise chain built by `hooks` (source lines 846-869), over the
extension list starting at stored index `i`.  A `none` extension lacks the
handler and is skipped by the `.filter`; an erroring handler settles the
chain with its rejection, and every later `.then` link — both later handlers
and callbacks — is skipped, exactly as a rejected promise skips `then`
links. -/
def hooksAux {α ε : Type} (cb : Option (α → Except ε Unit)) (i : Nat) :
    List (Option (Except ε α)) → List (HookEvent α) × Except ε Unit
  | [] => ([], Except.ok ())
  | none :: rest => hooksAux cb (i + 1) rest
  | some (Except.error e) :: _ => ([HookEvent.ran i], Except.error e)
  | some (Except.ok v) :: rest =>
    match cb with
    | none =>
      let t := hooksAux cb (i + 1) rest
      (HookEvent.ran i :: t.1, t.2)
    | some f =>
      match f v with
      | Except.error e => ([HookEvent.ran i, HookEvent.callbackRan i v], Except.error e)
      | Except.ok _ =>
        let t := hooksAux cb (i + 1) rest
        (HookEvent.ran i :: HookEvent.callbackRan i v :: t.1, t.2)

/-- `Hocuspocus.hooks(name, payload, callback)`: the chain over the full
stored extension list. -/
def hooksRun {α ε : Type} (cb : Option (α → Except ε Unit))
    (extensions : List (Option (Except ε α))) :
    List (HookEvent α) × Except ε Unit :=
  hooksAux cb 0 extensions

/-! ## The document registry (`Hocuspocus.createDocument`, source lines 654-725)

`this.documents` is a `Map<string, Document>`.  `createDocument` checks the
registry and, when the name is absent, constructs a `Document` and registers
it — with no `await` between the check and the registration — then awaits the
`onLoadDocument` hook chain; on rejection it deletes the name from the
registry and rethrows, on success it clears `isLoading`, awaits
`afterLoadDocument` and wires the update / stateless / awareness handlers.

The `await` boundaries become events of a transition system, so that
arbitrarily many overlapping `createDocument` calls and disconnect-path
removals can interleave. -/

/-- A `Document` object, identified by the order of its construction.
Modelled from the spec for the constructor only: the `Document` class itself
is not among the sources, and the spec states `isLoading` is true from
creation until `afterLoadDocument` returns. -/
structure RDoc where
  id : Nat
  isLoading : Bool
deriving DecidableEq, Repr

/-- Kernel state touched by `createDocument`: the `this.documents` registry,
a construction counter naming the next `Document` object, and the set of
in-flight `onLoadDocument` awaits, each remembering the name and the identity
of the half-created document. -/
structure RegState where
  docs : List (String × RDoc)
  nextId : Nat
  loading : List (String × Nat)
deriving DecidableEq, Repr

/-- Effects of one synchronous segment of `createDocument`. -/
inductive CreateEffect where
  | constructedDocument (id : Nat)
  | registeredDocument
  | startedOnLoadDocument
  | clearedLoadingFlag
  | ranAfterLoadDocument
  | wiredHandlers
  | closedConnectionsFor (name : String)
  | removedFromRegistry
  | rethrewLoadError
deriving DecidableEq, Repr

/-- The synchronous prefix of `createDocument` (source lines 657-681), up to
and including starting the `onLoadDocument` hook chain: return the registered
`Document` unchanged when one exists for the name, else construct a fresh
`Document`, register it, and start the load.  Returns the new state, the
document the call works with, and the effect trace of this segment. -/
def createDocumentBegin (s : RegState) (name : String) :
    RegState × RDoc × List CreateEffect :=
  match lookupKey s.docs name with
  | some d => (s, d, [])
  | none =>
    let d : RDoc := ⟨s.nextId, true⟩
    (⟨insertKey s.docs name d, s.nextId + 1, (name, d.id) :: s.loading⟩, d,
      [CreateEffect.constructedDocument d.id, CreateEffect.registeredDocument,
        CreateEffect.startedOnLoadDocument])

/-- The `catch` branch of `createDocument` (source lines 692-696): when the
`onLoadDocument` chain for `(name, id)` rejects, close all connections for
the name, delete the name from the registry, rethrow. -/
def createDocumentLoadFail (s : RegState) (name : String) (id : Nat) :
    RegState × List CreateEffect :=
  (⟨eraseKey s.docs name, s.nextId, (s.loading.filter (fun p => p ≠ (name, id)))⟩,
    [CreateEffect.closedConnectionsFor name, CreateEffect.removedFromRegistry,
      CreateEffect.rethrewLoadError])

/-- The success continuation of `createDocument` (source lines 698-724):
clear `isLoading` on the loaded document, run `afterLoadDocument`, wire the
update / stateless / awareness handlers.  The flag is cleared on the
document object itself; the registry reflects it only where that object is
still the one registered under the name. -/
def createDocumentLoadOk (s : RegState) (name : String) (id : Nat) :
    RegState × List CreateEffect :=
  (⟨s.docs.map (fun p =>
      if p.1 = name ∧ p.2.id = id then (p.1, ⟨p.2.id, false⟩) else p),
    s.nextId, (s.loading.filter (fun p => p ≠ (name, id)))⟩,
    [CreateEffect.clearedLoadingFlag, CreateEffect.ranAfterLoadDocument,
      CreateEffect.wiredHandlers])

/-- Interleaving events of the registry: a `createDocument` call reaching its
synchronous prefix, an in-flight load settling either way, and the
disconnect path deleting a document (source lines 784 and 792). -/
inductive RegEvent where
  | begin_ (name : String)
  | loadOk (name : String) (id : Nat)
  | loadFail (name : String) (id : Nat)
  | disconnectRemove (name : String)
deriving DecidableEq, Repr

/-- One registry transition.  Load events fire only for an actually
in-flight load; everything else is the identity. -/
def regStep (s : RegState) (e : RegEvent) : RegState :=
  match e with
  | RegEvent.begin_ name => (createDocumentBegin s name).1
  | RegEvent.loadOk name id =>
    if (name, id) ∈ s.loading then (createDocumentLoadOk s name id).1 else s
  | RegEvent.loadFail name id =>
    if (name, id) ∈ s.loading then (createDocumentLoadFail s name id).1 else s
  | RegEvent.disconnectRemove name =>
    ⟨eraseKey s.docs name, s.nextId, s.loading⟩

/-- The empty server: no documents, no loads in flight. -/
def regInit : RegState := ⟨[], 0, []⟩

/-- Run the registry system over a whole event interleaving. -/
def regRun (events : List RegEvent) : RegState :=
  events.foldl regStep regInit

/-! ## The per-transport handshake state machine
(`Hocuspocus.handleConnection`, source lines 374-577)

One accepted transport carries the closure state `documentConnections`,
`incomingMessageQueue`, `connectionEstablishing` (all keyed by document
name), plus the mutable context and the `ConnectionConfiguration`.  The
`await` boundaries — hook chains resolving, `setUpNewConnection` finishing
its document load — become events.  `applied` records every message handed
to an attached `Connection`, either replayed from the queue at attach time
or delivered directly once `documentConnections[name]` is set. -/

/-- The message types the handshake dispatches on. -/
inductive MsgType where
  | auth
  | sync
  | awareness
  | stateless
deriving DecidableEq, Repr

/-- An inbound framed message, reduced to the two fields the handshake
decodes: the document name and the type. -/
structure Msg where
  doc : String
  type : MsgType
deriving DecidableEq, Repr

/-- Per-transport handshake state.  `pendingConnect`, `pendingAuth` and
`pendingSetup` are the in-flight `onConnect` chains, `onAuthenticate` chains
and `setUpNewConnection` calls; `authOk` and `authStarts` are histories: the
names whose `onAuthenticate` chain resolved successfully, and one entry per
started `onAuthenticate` chain.  `requiresAuthentication` is the
per-transport field of the `ConnectionConfiguration` (source lines 385-389):
it is initialised from the server-level getter, but the configuration object
travels to the hooks inside `hookPayload`, and hooks may mutate it during
the handshake (spec §3); the `onConnect` success path re-reads it (source
line 548). -/
structure TState where
  attachedDocs : List String
  queues : List (String × List Msg)
  establishing : List String
  requiresAuthentication : Bool
  isAuthenticated : Bool
  pendingConnect : List String
  pendingAuth : List String
  pendingSetup : List String
  authOk : List String
  applied : List Msg
  authStarts : List String
  closed : Bool
deriving DecidableEq, Repr

/-- The fresh state of an accepted transport: `ra` is the value of the
server-level `requiresAuthentication` getter (source lines 140-144, true iff
some configured extension defines `onAuthenticate`), copied into the
transport's `ConnectionConfiguration` at source line 387. -/
def tInit (ra : Bool) : TState :=
  ⟨[], [], [], ra, false, [], [], [], [], [], [], false⟩

/-- Append a message to the per-document queue
(`incomingMessageQueue[documentName].push(data)`, source line 517). -/
def pushQueue (qs : List (String × List Msg)) (name : String) (m : Msg) :
    List (String × List Msg) :=
  match lookupKey qs name with
  | some q => insertKey qs name (q ++ [m])
  | none => insertKey qs name [m]

/-- `handleQueueingMessage` (source lines 443-525), after a successful
decode: an `Auth` message for a name not yet establishing marks the name
establishing and starts the `onAuthenticate` chain; every other message is
appended to the per-document queue. -/
def handleQueueing (s : TState) (m : Msg) : TState :=
  if m.type = MsgType.auth ∧ m.doc ∉ s.establishing then
    { s with
      establishing := m.doc :: s.establishing
      pendingAuth := m.doc :: s.pendingAuth
      authStarts := m.doc :: s.authStarts }
  else
    { s with queues := pushQueue s.queues m.doc m }

/-- Interleaving events of one transport.  `hookSetRequiresAuth b` is a hook
writing `connection.requiresAuthentication = b` through the shared
`ConnectionConfiguration` it receives in its payload — the spec (§3) makes
the configuration mutable by hooks during the handshake.  The model permits
the write at any point of the transport's lifetime, a superset of the real
behaviour (hooks run between their start and settlement events). -/
inductive TEvent where
  | recv (m : Msg)
  | connectResolve (doc : String) (ok : Bool)
  | authResolve (doc : String) (ok : Bool)
  | setupComplete (doc : String)
  | connClose (doc : String)
  | hookSetRequiresAuth (b : Bool)
deriving DecidableEq, Repr

/-- One transport transition.

`recv m` is `messageHandler` (source lines 527-574): nothing on a closed
transport; a message for an attached name is handled by the `Connection`
directly; a first message for a name initialises its queue and starts the
`onConnect` chain; and in all pre-attach cases `handleQueueingMessage` runs
synchronously afterwards.

`connectResolve` is the `onConnect` settlement (source lines 546-564): on
success the guard re-reads the current, possibly hook-mutated
`connection.requiresAuthentication` (source line 548); when it is set or the
name is already establishing, nothing happens; otherwise the name is marked
establishing and `setUpNewConnection` starts.  On rejection the websocket is
closed.

`authResolve` is the `onAuthenticate` settlement (source lines 474-515): on
success `isAuthenticated` is set, the name is recorded authenticated and
`setUpNewConnection` starts; on rejection `PermissionDenied` is sent and the
websocket is closed when no document on this transport has an attached
`Connection`.

`setupComplete` is `setUpNewConnection` finishing (source lines 413-440):
the name becomes attached and its queued messages are replayed, in order,
into the new `Connection`.

`connClose` is the `instance.onClose` handler (source lines 421-429): the
per-name closure entries are deleted and, when no attached document remains,
the websocket itself is closed. -/
def tStep (s : TState) (e : TEvent) : TState :=
  match e with
  | TEvent.recv m =>
    if s.closed then s
    else if m.doc ∈ s.attachedDocs then
      { s with applied := s.applied ++ [m] }
    else
      let s1 :=
        match lookupKey s.queues m.doc with
        | some _ => s
        | none =>
          { s with
            queues := insertKey s.queues m.doc []
            pendingConnect := m.doc :: s.pendingConnect }
      handleQueueing s1 m
  | TEvent.connectResolve doc ok =>
    if doc ∈ s.pendingConnect then
      let s1 := { s with pendingConnect := s.pendingConnect.erase doc }
      if ok then
        if s.requiresAuthentication ∨ doc ∈ s1.establishing then s1
        else
          { s1 with
            establishing := doc :: s1.establishing
            pendingSetup := doc :: s1.pendingSetup }
      else
        { s1 with closed := true }
    else s
  | TEvent.authResolve doc ok =>
    if doc ∈ s.pendingAuth then
      let s1 := { s with pendingAuth := s.pendingAuth.erase doc }
      if ok then
        { s1 with
          isAuthenticated := true
          authOk := doc :: s1.authOk
          pendingSetup := doc :: s1.pendingSetup }
      else
        if s1.attachedDocs.isEmpty then { s1 with closed := true } else s1
    else s
  | TEvent.setupComplete doc =>
    if doc ∈ s.pendingSetup then
      { s with
        pendingSetup := s.pendingSetup.erase doc
        attachedDocs := doc :: s.attachedDocs
        applied := s.applied ++ ((lookupKey s.queues doc).getD []) }
    else s
  | TEvent.connClose doc =>
    if doc ∈ s.attachedDocs then
      let att := s.attachedDocs.erase doc
      { s with
        attachedDocs := att
        queues := eraseKey s.queues doc
        establishing := s.establishing.erase doc
        closed := s.closed ∨ att.isEmpty }
    else s
  | TEvent.hookSetRequiresAuth b =>
    { s with requiresAuthentication := b }

/-- Run one transport over a whole event interleaving, starting from the
server-level `requiresAuthentication` value `ra`. -/
def tRun (ra : Bool) (events : List TEvent) : TState :=
  events.foldl tStep (tInit ra)

/-! ## Association-list lemmas -/

/-- A successful lookup exhibits a binding of the list. -/
theorem lookupKey_mem {β : Type} {l : List (String × β)} {k : String} {v : β}
    (h : lookupKey l k = some v) : (k, v) ∈ l := by
  induction l with
  | nil => simp [lookupKey] at h
  | cons p rest ih =>
    obtain ⟨k0, w⟩ := p
    by_cases hk : k0 = k
    · subst hk
      simp [lookupKey] at h
      subst h
      exact List.mem_cons_self _ _
    · simp [lookupKey, hk] at h
      exact List.mem_cons_of_mem _ (ih h)

/-- A failed lookup means the key is absent. -/
theorem not_mem_keys_of_lookupKey_none {β : Type} {l : List (String × β)}
    {k : String} (h : lookupKey l k = none) : k ∉ l.map Prod.fst := by
  induction l with
  | nil => simp
  | cons p rest ih =>
    obtain ⟨k0, w⟩ := p
    by_cases hk : k0 = k
    · simp [lookupKey, hk] at h
    · simp [lookupKey, hk] at h
      simp [hk, ih h]
      intro hc
      exact hk hc.symm

/-- Inserting an absent key appends the binding. -/
theorem insertKey_of_lookupKey_none {β : Type} {l : List (String × β)}
    {k : String} (v : β) (h : lookupKey l k = none) :
    insertKey l k v = l ++ [(k, v)] := by
  induction l with
  | nil => rfl
  | cons p rest ih =>
    obtain ⟨k0, w⟩ := p
    by_cases hk : k0 = k
    · simp [lookupKey, hk] at h
    · simp [lookupKey, hk] at h
      simp [insertKey, hk, ih h]

/-- Erasure yields a sublist. -/
theorem eraseKey_sublist {β : Type} (l : List (String × β)) (k : String) :
    List.Sublist (eraseKey l k) l := by
  induction l with
  | nil => simp [eraseKey]
  | cons p rest ih =>
    obtain ⟨k0, w⟩ := p
    by_cases hk : k0 = k
    · rw [show eraseKey ((k0, w) :: rest) k = eraseKey rest k from by simp [eraseKey, hk]]
      exact ih.cons (k0, w)
    · rw [show eraseKey ((k0, w) :: rest) k = (k0, w) :: eraseKey rest k from by
        simp [eraseKey, hk]]
      exact ih.cons₂ (k0, w)

/-- Looking up the freshly inserted key. -/
theorem lookupKey_insertKey_self {β : Type} (l : List (String × β))
    (k : String) (v : β) : lookupKey (insertKey l k v) k = some v := by
  induction l with
  | nil => simp [insertKey, lookupKey]
  | cons p rest ih =>
    obtain ⟨k0, w⟩ := p
    by_cases hk : k0 = k
    · simp [insertKey, hk, lookupKey]
    · simp [insertKey, hk, lookupKey, ih]

/-- Insertion leaves other keys untouched. -/
theorem lookupKey_insertKey_ne {β : Type} (l : List (String × β))
    {k k1 : String} (v : β) (h : k1 ≠ k) :
    lookupKey (insertKey l k v) k1 = lookupKey l k1 := by
  have hne : ¬(k = k1) := fun hc => h hc.symm
  induction l with
  | nil => simp [insertKey, lookupKey, hne]
  | cons p rest ih =>
    obtain ⟨k0, w⟩ := p
    by_cases hk : k0 = k
    · subst hk
      simp only [insertKey, if_pos rfl, lookupKey, if_neg hne]
    · simp only [insertKey, if_neg hk, lookupKey]
      by_cases hk1 : k0 = k1
      · simp [hk1]
      · simp [hk1, ih]

/-- Looking up an erased key fails. -/
theorem lookupKey_eraseKey_self {β : Type} (l : List (String × β))
    (k : String) : lookupKey (eraseKey l k) k = none := by
  induction l with
  | nil => rfl
  | cons p rest ih =>
    obtain ⟨k0, w⟩ := p
    by_cases hk : k0 = k
    · simp [eraseKey, hk, ih]
    · simp [eraseKey, hk, lookupKey, ih]

/-- Erasure leaves other keys untouched. -/
theorem lookupKey_eraseKey_ne {β : Type} (l : List (String × β))
    {k k1 : String} (h : k1 ≠ k) :
    lookupKey (eraseKey l k) k1 = lookupKey l k1 := by
  have hne : ¬(k = k1) := fun hc => h hc.symm
  induction l with
  | nil => rfl
  | cons p rest ih =>
    obtain ⟨k0, w⟩ := p
    by_cases hk : k0 = k
    · subst hk
      have h1 : eraseKey ((k0, w) :: rest) k0 = eraseKey rest k0 := by simp [eraseKey]
      have h2 : lookupKey ((k0, w) :: rest) k1 = lookupKey rest k1 := by
        simp [lookupKey, hne]
      rw [h1, h2, ih]
    · simp only [eraseKey, if_neg hk, lookupKey]
      by_cases hk1 : k0 = k1
      · simp [hk1]
      · simp [hk1, ih]

/-! ## Registry invariant: at most one Document per name -/

/-- The registry maps names uniquely: its key list has no duplicates. -/
def RegNodup (s : RegState) : Prop := (s.docs.map Prod.fst).Nodup

/-- The `createDocument` success continuation only rewrites values, never
keys. -/
theorem createDocumentLoadOk_keys (s : RegState) (name : String) (id : Nat) :
    ((createDocumentLoadOk s name id).1.docs.map Prod.fst) = s.docs.map Prod.fst := by
  show ((s.docs.map _).map Prod.fst) = s.docs.map Prod.fst
  induction s.docs with
  | nil => rfl
  | cons p rest ih =>
    simp only [List.map_cons, ih]
    by_cases hc : p.1 = name ∧ p.2.id = id
    · simp [hc]
    · simp [hc]

/-- Every registry transition preserves key uniqueness. -/
theorem regStep_nodup (s : RegState) (e : RegEvent) (h : RegNodup s) :
    RegNodup (regStep s e) := by
  cases e with
  | begin_ name =>
    show RegNodup (createDocumentBegin s name).1
    unfold createDocumentBegin
    cases hl : lookupKey s.docs name with
    | some d => exact h
    | none =>
      show RegNodup ⟨insertKey s.docs name _, _, _⟩
      unfold RegNodup
      rw [insertKey_of_lookupKey_none _ hl]
      simp only [List.map_append, List.map_cons, List.map_nil]
      rw [List.nodup_append]
      refine ⟨h, List.nodup_singleton _, ?_⟩
      intro a ha hb
      simp at hb
      subst hb
      exact not_mem_keys_of_lookupKey_none hl ha
  | loadOk name id =>
    unfold regStep
    by_cases hin : (name, id) ∈ s.loading
    · simp only [if_pos hin]
      unfold RegNodup
      rw [createDocumentLoadOk_keys]
      exact h
    · simp only [if_neg hin]
      exact h
  | loadFail name id =>
    unfold regStep
    by_cases hin : (name, id) ∈ s.loading
    · simp only [if_pos hin]
      exact List.Nodup.sublist ((eraseKey_sublist s.docs name).map Prod.fst) h
    · simp only [if_neg hin]
      exact h
  | disconnectRemove name =>
    exact List.Nodup.sublist ((eraseKey_sublist s.docs name).map Prod.fst) h

/-- Key uniqueness holds along every interleaving. -/
theorem regRun_nodup (events : List RegEvent) : RegNodup (regRun events) := by
  suffices hgen : ∀ s, RegNodup s → RegNodup (events.foldl regStep s) by
    exact hgen regInit (by simp [RegNodup, regInit])
  induction events with
  | nil => intro s hs; exact hs
  | cons e rest ih =>
    intro s hs
    exact ih (regStep s e) (regStep_nodup s e hs)

/-- C1: For every document name, at any moment at most one Document object
exists in the server's registry.  `createDocument` returns the registered
Document when one exists, registers a newly constructed Document in the same
synchronous segment as the registry check (the `begin_` event), and the
`onLoadDocument` failure path removes the half-created Document — so along
every interleaving of createDocument calls, load outcomes and disconnect
removals, the registry never holds two Documents under one name. -/
theorem hocuspocus_registry_at_most_one_document (events : List RegEvent) :
    (((regRun events).docs.map Prod.fst).Nodup)
      ∧ (∀ s : RegState, ∀ name d, lookupKey s.docs name = some d →
          (createDocumentBegin s name).1 = s) := by
  constructor
  · exact regRun_nodup events
  · intro s name d hl
    unfold createDocumentBegin
    rw [hl]

/-- C10: When a Document with the given name is registered, `createDocument`
returns exactly that Document, with no other effect: the state (registry,
construction counter, in-flight loads — hence also the existing document's
`isLoading` flag) is unchanged and the effect trace is empty, even when the
registered document is still loading. -/
theorem hocuspocus_create_document_reuse (s : RegState) (name : String)
    (d : RDoc) (h : lookupKey s.docs name = some d) :
    createDocumentBegin s name = (s, d, []) := by
  unfold createDocumentBegin
  rw [h]

/-- Witness for C10 at a registry holding a still-loading document. -/
theorem hocuspocus_create_document_reuse_witness :
    createDocumentBegin ⟨[("doc", ⟨0, true⟩)], 1, [("doc", 0)]⟩ "doc"
      = (⟨[("doc", ⟨0, true⟩)], 1, [("doc", 0)]⟩, ⟨0, true⟩, []) :=
  hocuspocus_create_document_reuse ⟨[("doc", ⟨0, true⟩)], 1, [("doc", 0)]⟩ "doc"
    ⟨0, true⟩ (by decide)

/-! ## Debouncer behaviour (C4) -/

/-- C4: `debounce(id, fn, true)` cancels any pending timer for `id`, deletes
the timer entry and runs `fn` synchronously; `debounce(id, fn, false)` takes
`start` from the existing pending entry (or now), runs `fn` immediately when
`now - start ≥ maxDebounce`, and otherwise replaces any prior timer for `id`
with one firing after the configured debounce interval, preserving the
original `start` — so the scheduled fire time stays below
`start + maxDebounce + debounce`.  The positivity hypothesis reflects that
every stored `start` is a `Date.now()` value (the source reads it back
through the falsy `old?.start || Date.now()`). -/
theorem hocuspocus_debounce_spec (maxD debD : Nat)
    (timers : List (String × DebounceTimer)) (now : Nat) (id : String)
    (start0 : Nat)
    (hpos : ∀ p ∈ timers, 0 < (Prod.snd p).start)
    (hstart : (match lookupKey timers id with
               | some o => o.start
               | none => now) = start0) :
    (debounceStep maxD debD timers now id true = ⟨eraseKey timers id, true, none⟩)
    ∧ ((maxD : Int) ≤ (now : Int) - (start0 : Int) →
        debounceStep maxD debD timers now id false = ⟨eraseKey timers id, true, none⟩)
    ∧ ((now : Int) - (start0 : Int) < (maxD : Int) →
        debounceStep maxD debD timers now id false
          = ⟨insertKey timers id ⟨start0, now + debD⟩, false, some (now + debD)⟩
        ∧ now + debD < start0 + maxD + debD) := by
  have hsel : (match lookupKey timers id with
               | some o => if o.start = 0 then now else o.start
               | none => now) = start0 := by
    cases hl : lookupKey timers id with
    | none => rw [hl] at hstart; exact hstart
    | some o =>
      rw [hl] at hstart
      have hmem := lookupKey_mem hl
      have hop : 0 < o.start := hpos (id, o) hmem
      simp only [Nat.pos_iff_ne_zero] at hop
      simp only [if_neg hop]
      exact hstart
  refine ⟨?_, ?_, ?_⟩
  · unfold debounceStep
    simp
  · intro hle
    unfold debounceStep
    simp only [hsel]
    rw [if_neg (by simp), if_pos hle]
  · intro hlt
    unfold debounceStep
    simp only [hsel]
    rw [if_neg (by simp), if_neg (by omega)]
    refine ⟨rfl, ?_⟩
    omega

/-- Witness for C4 at a map holding a pending entry for the id. -/
theorem hocuspocus_debounce_spec_witness :
    (debounceStep 10 2 [("a", ⟨5, 30⟩)] 7 "a" true
      = ⟨eraseKey [("a", ⟨5, 30⟩)] "a", true, none⟩)
    ∧ (debounceStep 10 2 [("a", ⟨5, 30⟩)] 7 "a" false
        = ⟨insertKey [("a", ⟨5, 30⟩)] "a" ⟨5, 9⟩, false, some 9⟩
      ∧ 9 < 5 + 10 + 2) := by
  have h := hocuspocus_debounce_spec 10 2 [("a", ⟨5, 30⟩)] 7 "a" 5
    (by decide) (by decide)
  exact ⟨h.1, h.2.2 (by decide)⟩

/-! ## Disconnect path and store-error handling (C5, C6, C8) -/

/-- C5: When the `onDisconnect` chain resolves with no connection left and
the document is still loading, the disconnect path runs no store hook and
immediately removes and destroys the document, leaving the debounce timers
untouched; when the document is not loading it instead immediately flushes
the `onStoreDocument` debounce entry — the flushed closure starting with the
`onStoreDocument` hook — before any removal. -/
theorem hocuspocus_disconnect_loading_no_store (name : String)
    (storeR afterR : Except (Option HookError) Unit) (count2 : Nat)
    (maxD debD : Nat) (timers : List (String × DebounceTimer)) (now : Nat) :
    (connectionOnClose name true (Except.ok ()) 0 storeR afterR count2
        maxD debD timers now
      = ([KernelEffect.ranOnDisconnect, KernelEffect.removedFromRegistry,
          KernelEffect.destroyedDocument], timers))
    ∧ KernelEffect.ranOnStoreDocument ∉
        (connectionOnClose name true (Except.ok ()) 0 storeR afterR count2
          maxD debD timers now).1
    ∧ (connectionOnClose name false (Except.ok ()) 0 storeR afterR count2
        maxD debD timers now).1
      = KernelEffect.ranOnDisconnect
          :: KernelEffect.debouncedImmediate ("onStoreDocument-" ++ name)
          :: storeFlushChain storeR afterR count2
    ∧ (storeFlushChain storeR afterR count2).head?
      = some KernelEffect.ranOnStoreDocument := by
  refine ⟨rfl, ?_, rfl, rfl⟩
  rw [show (connectionOnClose name true (Except.ok ()) 0 storeR afterR count2
      maxD debD timers now).1
    = [KernelEffect.ranOnDisconnect, KernelEffect.removedFromRegistry,
        KernelEffect.destroyedDocument] from rfl]
  decide

/-- C6: In both persistence pipelines — the debounced store scheduled by
document updates and the immediate flush on last-disconnect — a rejection of
the `onStoreDocument` chain carrying a non-empty message is rethrown and
stops the pipeline before `afterStoreDocument`, while a rejection carrying no
non-empty message is swallowed and the pipeline continues into
`afterStoreDocument`. -/
theorem hocuspocus_store_error_swallowing (e : Option HookError)
    (afterR : Except (Option HookError) Unit) (count2 : Nat) :
    (errHasMessage e = true →
      onStoreDocumentChain (Except.error e) afterR
        = ([KernelEffect.ranOnStoreDocument], some e)
      ∧ storeFlushChain (Except.error e) afterR count2
        = [KernelEffect.ranOnStoreDocument])
    ∧ (errHasMessage e = false →
      (onStoreDocumentChain (Except.error e) afterR).1
        = [KernelEffect.ranOnStoreDocument, KernelEffect.ranAfterStoreDocument]
      ∧ KernelEffect.ranAfterStoreDocument
          ∈ storeFlushChain (Except.error e) afterR count2) := by
  constructor
  · intro hmsg
    constructor
    · simp [onStoreDocumentChain, hmsg]
    · simp [storeFlushChain, hmsg]
  · intro hmsg
    constructor
    · cases afterR <;> simp [onStoreDocumentChain, hmsg]
    · cases afterR <;> simp [storeFlushChain, hmsg]

/-- Witness for C6: a store rejection with message "boom" is rethrown with
the update-path pipeline stopped, and a store rejection with the value
`undefined` is swallowed with the disconnect-path pipeline continuing. -/
theorem hocuspocus_store_error_swallowing_witness :
    (onStoreDocumentChain (Except.error (some ⟨none, none, some "boom"⟩))
        (Except.ok ())
      = ([KernelEffect.ranOnStoreDocument], some (some ⟨none, none, some "boom"⟩)))
    ∧ KernelEffect.ranAfterStoreDocument
        ∈ storeFlushChain (Except.error none) (Except.ok ()) 0 :=
  ⟨((hocuspocus_store_error_swallowing (some ⟨none, none, some "boom"⟩)
      (Except.ok ()) 0).1 (by decide)).1,
    ((hocuspocus_store_error_swallowing none (Except.ok ()) 0).2 (by decide)).2⟩

/-- C8: For an update delivered with an undefined origin connection,
`handleDocumentUpdate` runs the `onChange` hook and returns before any
persistence scheduling — the debounce timer map is returned unchanged and
the trace contains neither a debounce call nor a store hook. -/
theorem hocuspocus_update_without_connection_frame (name : String)
    (maxD debD : Nat) (timers : List (String × DebounceTimer)) (now : Nat) :
    handleDocumentUpdate none name maxD debD timers now
      = ([KernelEffect.ranOnChange], timers)
    ∧ (∀ key, KernelEffect.debounceCalled key
        ∉ (handleDocumentUpdate none name maxD debD timers now).1)
    ∧ KernelEffect.ranOnStoreDocument
        ∉ (handleDocumentUpdate none name maxD debD timers now).1
    ∧ KernelEffect.ranAfterStoreDocument
        ∉ (handleDocumentUpdate none name maxD debD timers now).1 := by
  refine ⟨rfl, ?_, ?_, ?_⟩ <;> simp [handleDocumentUpdate]

/-! ## Close-code fallback (C7)

The two rejection paths disagree: the `onAuthenticate` path retries the close
with `Forbidden` (source line 511), but the `onConnect` path retries it with
`Unauthorized` (source line 562). -/

/-- C7 counterexample: when a hook on the `onConnect` rejection path supplies
a close code invalid for the transport (the first close call throws), the
kernel falls back to `Unauthorized`, not `Forbidden` — refuting the claim
that every such close path falls back to the Forbidden code and reason. -/
theorem hocuspocus_connect_fallback_not_forbidden :
    onConnectRejectionClose (some ⟨some 99999, none, none⟩) true = Unauthorized
    ∧ Unauthorized ≠ Forbidden := by
  constructor
  · rfl
  · decide

/-- C7 amended: when the hook-supplied close code is invalid for the
transport (the close call throws), the `onAuthenticate` rejection path falls
back to closing with the Forbidden code and reason, while the `onConnect`
rejection path falls back to the Unauthorized code and reason; on the
`onAuthenticate` path the fallback close is issued only after the
`PermissionDenied` send completed and only when no document on the transport
has an attached Connection. -/
theorem hocuspocus_close_fallback_codes (e : Option HookError) :
    authRejectionClose e true = Forbidden
    ∧ onConnectRejectionClose e true = Unauthorized
    ∧ authRejectionEffects e true true
      = [AuthFailEffect.sentPermissionDenied
            ((e.getD forbiddenAsError).reason.getD "permission-denied"),
          AuthFailEffect.closedTransport Forbidden]
    ∧ authRejectionEffects e false true
      = [AuthFailEffect.sentPermissionDenied
            ((e.getD forbiddenAsError).reason.getD "permission-denied")] := by
  refine ⟨rfl, rfl, rfl, rfl⟩

/-! ## Hook pipeline (C3) -/

/-- Trace entries of a hook chain appear with indices bounded below by the
starting index and in non-decreasing index order: the chain visits the
stored extension order. -/
theorem hooksAux_ordered {α ε : Type} (cb : Option (α → Except ε Unit)) :
    ∀ (exts : List (Option (Except ε α))) (i : Nat),
      (∀ ev ∈ (hooksAux cb i exts).1, i ≤ ev.idx)
      ∧ (hooksAux cb i exts).1.Pairwise (fun a b => a.idx ≤ b.idx) := by
  intro exts
  induction exts with
  | nil =>
    intro i
    constructor
    · intro ev h
      simp [hooksAux] at h
    · simp [hooksAux]
  | cons x rest ih =>
    intro i
    match x with
    | none =>
      have h := ih (i + 1)
      rw [show hooksAux cb i (none :: rest) = hooksAux cb (i + 1) rest from rfl]
      exact ⟨fun ev hev => Nat.le_of_succ_le (h.1 ev hev), h.2⟩
    | some (Except.error e) =>
      rw [show hooksAux cb i (some (Except.error e) :: rest)
          = ([HookEvent.ran i], Except.error e) from rfl]
      constructor
      · intro ev hev
        simp at hev
        subst hev
        simp [HookEvent.idx]
      · simp
    | some (Except.ok v) =>
      cases cb with
      | none =>
        have h := ih (i + 1)
        rw [show hooksAux none i (some (Except.ok v) :: rest)
            = (HookEvent.ran i :: (hooksAux none (i + 1) rest).1,
                (hooksAux none (i + 1) rest).2) from rfl]
        constructor
        · intro ev hev
          rcases List.mem_cons.mp hev with rfl | hev
          · simp [HookEvent.idx]
          · exact Nat.le_of_succ_le (h.1 ev hev)
        · refine List.Pairwise.cons ?_ h.2
          intro b hb
          simp only [HookEvent.idx]
          exact Nat.le_of_succ_le (h.1 b hb)
      | some f =>
        cases hfv : f v with
        | error e =>
          rw [show hooksAux (some f) i (some (Except.ok v) :: rest)
              = (match f v with
                 | Except.error e =>
                   ([HookEvent.ran i, HookEvent.callbackRan i v], Except.error e)
                 | Except.ok _ =>
                   (HookEvent.ran i :: HookEvent.callbackRan i v
                       :: (hooksAux (some f) (i + 1) rest).1,
                     (hooksAux (some f) (i + 1) rest).2)) from rfl]
          rw [hfv]
          constructor
          · intro ev hev
            rcases List.mem_cons.mp hev with rfl | hev
            · simp [HookEvent.idx]
            · simp at hev
              subst hev
              simp [HookEvent.idx]
          · simp [HookEvent.idx]
        | ok u =>
          have h := ih (i + 1)
          rw [show hooksAux (some f) i (some (Except.ok v) :: rest)
              = (match f v with
                 | Except.error e =>
                   ([HookEvent.ran i, HookEvent.callbackRan i v], Except.error e)
                 | Except.ok _ =>
                   (HookEvent.ran i :: HookEvent.callbackRan i v
                       :: (hooksAux (some f) (i + 1) rest).1,
                     (hooksAux (some f) (i + 1) rest).2)) from rfl]
          rw [hfv]
          constructor
          · intro ev hev
            rcases List.mem_cons.mp hev with rfl | hev
            · simp [HookEvent.idx]
            · rcases List.mem_cons.mp hev with rfl | hev
              · simp [HookEvent.idx]
              · exact Nat.le_of_succ_le (h.1 ev hev)
          · refine List.Pairwise.cons ?_ (List.Pairwise.cons ?_ h.2)
            · intro b hb
              rcases List.mem_cons.mp hb with rfl | hb
              · simp [HookEvent.idx]
              · simp only [HookEvent.idx]
                exact Nat.le_of_succ_le (h.1 b hb)
            · intro b hb
              simp only [HookEvent.idx]
              exact Nat.le_of_succ_le (h.1 b hb)

/-- When every handler before position `pre.length` succeeds (and its
callback, when one is supplied, succeeds too) and the handler at that
position rejects with `e`, the chain settles with exactly that rejection:
the erroring handler itself runs, no event of the trace concerns a later
extension, and the erroring handler's own callback does not run. -/
theorem hooksAux_first_error {α ε : Type} (cb : Option (α → Except ε Unit))
    (e : ε) (post : List (Option (Except ε α))) :
    ∀ (pre : List (Option (Except ε α))) (i : Nat),
      (∀ x ∈ pre, ∀ r, x = some r →
        ∃ v, r = Except.ok v ∧ ∀ f, cb = some f → f v = Except.ok ()) →
      (hooksAux cb i (pre ++ some (Except.error e) :: post)).2 = Except.error e
      ∧ (∀ ev ∈ (hooksAux cb i (pre ++ some (Except.error e) :: post)).1,
          ev.idx ≤ i + pre.length)
      ∧ HookEvent.ran (i + pre.length)
          ∈ (hooksAux cb i (pre ++ some (Except.error e) :: post)).1
      ∧ (∀ v, HookEvent.callbackRan (i + pre.length) v
          ∉ (hooksAux cb i (pre ++ some (Except.error e) :: post)).1) := by
  intro pre
  induction pre with
  | nil =>
    intro i hpre
    rw [show ([] : List (Option (Except ε α))) ++ some (Except.error e) :: post
        = some (Except.error e) :: post from rfl]
    rw [show hooksAux cb i (some (Except.error e) :: post)
        = ([HookEvent.ran i], Except.error e) from rfl]
    refine ⟨rfl, ?_, ?_, ?_⟩
    · intro ev hev
      simp at hev
      subst hev
      simp [HookEvent.idx]
    · simp
    · intro v hv
      simp at hv
  | cons x pre1 ih =>
    intro i hpre
    have hpre1 : ∀ y ∈ pre1, ∀ r, y = some r →
        ∃ v, r = Except.ok v ∧ ∀ f, cb = some f → f v = Except.ok () :=
      fun y hy => hpre y (List.mem_cons_of_mem _ hy)
    cases x with
    | none =>
      have hlen : i + (List.length (none :: pre1)) = (i + 1) + pre1.length := by
        simp [List.length_cons]
        omega
      rw [show (none :: pre1) ++ some (Except.error e) :: post
          = none :: (pre1 ++ some (Except.error e) :: post) from rfl]
      rw [show hooksAux cb i (none :: (pre1 ++ some (Except.error e) :: post))
          = hooksAux cb (i + 1) (pre1 ++ some (Except.error e) :: post) from rfl]
      rw [hlen]
      exact ih (i + 1) hpre1
    | some r =>
      obtain ⟨v, rfl, hcb⟩ := hpre (some r) (List.mem_cons_self _ _) r rfl
      have hlen : i + (List.length (some (Except.ok v) :: pre1))
          = (i + 1) + pre1.length := by
        simp [List.length_cons]
        omega
      have h := ih (i + 1) hpre1
      cases cb with
      | none =>
        rw [show (some (Except.ok v) :: pre1) ++ some (Except.error e) :: post
            = some (Except.ok v) :: (pre1 ++ some (Except.error e) :: post) from rfl]
        rw [show hooksAux none i
              (some (Except.ok v) :: (pre1 ++ some (Except.error e) :: post))
            = (HookEvent.ran i
                :: (hooksAux none (i + 1) (pre1 ++ some (Except.error e) :: post)).1,
              (hooksAux none (i + 1) (pre1 ++ some (Except.error e) :: post)).2)
            from rfl]
        rw [hlen]
        refine ⟨h.1, ?_, ?_, ?_⟩
        · intro ev hev
          rcases List.mem_cons.mp hev with rfl | hev
          · simp only [HookEvent.idx]
            omega
          · exact h.2.1 ev hev
        · exact List.mem_cons_of_mem _ h.2.2.1
        · intro w hw
          rcases List.mem_cons.mp hw with hw | hw
          · exact HookEvent.noConfusion hw
          · exact h.2.2.2 w hw
      | some f =>
        have hfv : f v = Except.ok () := hcb f rfl
        rw [show (some (Except.ok v) :: pre1) ++ some (Except.error e) :: post
            = some (Except.ok v) :: (pre1 ++ some (Except.error e) :: post) from rfl]
        rw [show hooksAux (some f) i
              (some (Except.ok v) :: (pre1 ++ some (Except.error e) :: post))
            = (match f v with
               | Except.error e1 =>
                 ([HookEvent.ran i, HookEvent.callbackRan i v], Except.error e1)
               | Except.ok _ =>
                 (HookEvent.ran i :: HookEvent.callbackRan i v
                     :: (hooksAux (some f) (i + 1)
                          (pre1 ++ some (Except.error e) :: post)).1,
                   (hooksAux (some f) (i + 1)
                     (pre1 ++ some (Except.error e) :: post)).2)) from rfl]
        rw [hfv, hlen]
        refine ⟨h.1, ?_, ?_, ?_⟩
        · intro ev hev
          rcases List.mem_cons.mp hev with rfl | hev
          · simp only [HookEvent.idx]
            omega
          · rcases List.mem_cons.mp hev with rfl | hev
            · simp only [HookEvent.idx]
              omega
            · exact h.2.1 ev hev
        · exact List.mem_cons_of_mem _ (List.mem_cons_of_mem _ h.2.2.1)
        · intro w hw
          rcases List.mem_cons.mp hw with hw | hw
          · exact HookEvent.noConfusion hw
          · rcases List.mem_cons.mp hw with hw | hw
            · have hne : (i + 1) + pre1.length ≠ i := by omega
              have := congrArg HookEvent.idx hw
              simp only [HookEvent.idx] at this
              exact hne this
            · exact h.2.2.2 w hw

/-- C3: `hooks(name, payload, callback)` runs the handlers strictly
sequentially in the stored extension order (the trace indices are
non-decreasing), and when the handler at position `pre.length` rejects after
all earlier handlers (and their callbacks) succeeded, the rejection is
propagated as the chain's settled value, no handler or callback of any later
extension runs, and the rejecting handler's own callback does not run. -/
theorem hocuspocus_hooks_sequential_short_circuit {α ε : Type}
    (cb : Option (α → Except ε Unit)) (pre post : List (Option (Except ε α)))
    (e : ε)
    (hpre : ∀ x ∈ pre, ∀ r, x = some r →
      ∃ v, r = Except.ok v ∧ ∀ f, cb = some f → f v = Except.ok ()) :
    ((hooksRun cb (pre ++ some (Except.error e) :: post)).1.Pairwise
        (fun a b => a.idx ≤ b.idx))
    ∧ (hooksRun cb (pre ++ some (Except.error e) :: post)).2 = Except.error e
    ∧ (∀ ev ∈ (hooksRun cb (pre ++ some (Except.error e) :: post)).1,
        ev.idx ≤ pre.length)
    ∧ HookEvent.ran pre.length
        ∈ (hooksRun cb (pre ++ some (Except.error e) :: post)).1
    ∧ (∀ v, HookEvent.callbackRan pre.length v
        ∉ (hooksRun cb (pre ++ some (Except.error e) :: post)).1) := by
  have h1 := hooksAux_ordered cb (pre ++ some (Except.error e) :: post) 0
  have h2 := hooksAux_first_error cb e post pre 0 hpre
  rw [show (0 : Nat) + pre.length = pre.length from by omega] at h2
  exact ⟨h1.2, h2.1, h2.2.1, h2.2.2.1, h2.2.2.2⟩

/-- Witness for C3: four extensions — an ok handler, an extension without
the handler, a rejecting handler, an ok handler — with a succeeding
callback; the chain settles with the rejection and the erroring extension's
handler (stored index 2) ran. -/
theorem hocuspocus_hooks_witness :
    (hooksRun (some (fun _ => Except.ok ()))
        [some (Except.ok (1 : Nat)), none, some (Except.error (7 : Nat)),
          some (Except.ok 2)]).2 = Except.error 7
    ∧ HookEvent.ran 2
        ∈ (hooksRun (some (fun _ => Except.ok ()))
            [some (Except.ok (1 : Nat)), none, some (Except.error (7 : Nat)),
              some (Except.ok 2)]).1 := by
  have h := hocuspocus_hooks_sequential_short_circuit
    (some (fun _ => Except.ok ())) [some (Except.ok (1 : Nat)), none]
    [some (Except.ok (2 : Nat))] (7 : Nat)
    (by
      intro x hx r hr
      simp only [List.mem_cons, List.not_mem_nil, or_false] at hx
      rcases hx with rfl | rfl
      · injection hr with hr
        subst hr
        exact ⟨1, rfl, fun f hf => by injection hf with hf; subst hf; rfl⟩
      · exact Option.noConfusion hr)
  exact ⟨h.2.1, h.2.2.2.1⟩

/-! ## Transport handshake invariants (C2, C9) -/

/-- Combined lookup-after-insert equation. -/
theorem lookupKey_insertKey {β : Type} (l : List (String × β)) (k k1 : String)
    (v : β) :
    lookupKey (insertKey l k v) k1 = if k1 = k then some v else lookupKey l k1 := by
  by_cases h : k1 = k
  · subst h
    simp [lookupKey_insertKey_self]
  · simp [h, lookupKey_insertKey_ne l v h]

/-- Combined lookup-after-erase equation. -/
theorem lookupKey_eraseKey {β : Type} (l : List (String × β)) (k k1 : String) :
    lookupKey (eraseKey l k) k1 = if k1 = k then none else lookupKey l k1 := by
  by_cases h : k1 = k
  · subst h
    simp [lookupKey_eraseKey_self]
  · simp [h, lookupKey_eraseKey_ne l h]

/-- Queue coherence: every message sits in the queue of its own document
name (messages are pushed under the name just decoded from them). -/
def QueueCoherent (qs : List (String × List Msg)) : Prop :=
  ∀ name m, m ∈ (lookupKey qs name).getD [] → m.doc = name

/-- Pushing a message keeps the queues coherent. -/
theorem pushQueue_coherent {qs : List (String × List Msg)} (m : Msg)
    (h : QueueCoherent qs) : QueueCoherent (pushQueue qs m.doc m) := by
  intro name m1 hm1
  unfold pushQueue at hm1
  cases hlu : lookupKey qs m.doc with
  | some q =>
    rw [hlu] at hm1
    rw [lookupKey_insertKey] at hm1
    by_cases hn : name = m.doc
    · subst hn
      rw [if_pos rfl] at hm1
      simp only [Option.getD_some] at hm1
      rcases List.mem_append.mp hm1 with hm1 | hm1
      · exact h m.doc m1 (by rw [hlu]; exact hm1)
      · simp only [List.mem_singleton] at hm1
        subst hm1
        rfl
    · rw [if_neg hn] at hm1
      exact h name m1 hm1
  | none =>
    rw [hlu] at hm1
    rw [lookupKey_insertKey] at hm1
    by_cases hn : name = m.doc
    · rw [if_pos hn] at hm1
      simp only [Option.getD_some, List.mem_singleton] at hm1
      subst hm1
      exact hn.symm
    · rw [if_neg hn] at hm1
      exact h name m1 hm1

/-- Inserting an empty queue keeps the queues coherent. -/
theorem insertKeyNil_coherent {qs : List (String × List Msg)} (k : String)
    (h : QueueCoherent qs) : QueueCoherent (insertKey qs k []) := by
  intro name m hm
  rw [lookupKey_insertKey] at hm
  by_cases hn : name = k
  · rw [if_pos hn] at hm
    simp at hm
  · rw [if_neg hn] at hm
    exact h name m hm

/-- Erasing a queue keeps the queues coherent. -/
theorem eraseKey_coherent {qs : List (String × List Msg)} (k : String)
    (h : QueueCoherent qs) : QueueCoherent (eraseKey qs k) := by
  intro name m hm
  rw [lookupKey_eraseKey] at hm
  by_cases hn : name = k
  · rw [if_pos hn] at hm
    simp at hm
  · rw [if_neg hn] at hm
    exact h name m hm

/-- The authorization invariant of one transport: the per-transport
`requiresAuthentication` flag is still set, queues are coherent, and — since
with the flag set attachment starts only from a successful `onAuthenticate`
settlement — every in-flight `setUpNewConnection`, every attached document
and every applied message belongs to a name whose `onAuthenticate` chain has
resolved successfully. -/
def TInvAuth (s : TState) : Prop :=
  s.requiresAuthentication = true
  ∧ QueueCoherent s.queues
  ∧ (∀ d ∈ s.pendingSetup, d ∈ s.authOk)
  ∧ (∀ d ∈ s.attachedDocs, d ∈ s.authOk)
  ∧ (∀ m ∈ s.applied, m.doc ∈ s.authOk)

/-- `handleQueueingMessage` never touches the authentication-requirement
flag, the in-flight setups, the attached set, the applied trace or the
authentication history. -/
theorem handleQueueing_fields (s : TState) (m : Msg) :
    (handleQueueing s m).requiresAuthentication = s.requiresAuthentication
    ∧ (handleQueueing s m).pendingSetup = s.pendingSetup
    ∧ (handleQueueing s m).attachedDocs = s.attachedDocs
    ∧ (handleQueueing s m).applied = s.applied
    ∧ (handleQueueing s m).authOk = s.authOk := by
  unfold handleQueueing
  split <;> exact ⟨rfl, rfl, rfl, rfl, rfl⟩

/-- `handleQueueingMessage` either leaves the queues alone (authentication
branch) or pushes the message under its own document name. -/
theorem handleQueueing_queues (s : TState) (m : Msg) :
    (handleQueueing s m).queues = s.queues
    ∨ (handleQueueing s m).queues = pushQueue s.queues m.doc m := by
  unfold handleQueueing
  split
  · exact Or.inl rfl
  · exact Or.inr rfl

/-- `handleQueueingMessage` preserves the authorization invariant. -/
theorem handleQueueing_inv (s : TState) (m : Msg) (h : TInvAuth s) :
    TInvAuth (handleQueueing s m) := by
  obtain ⟨hra, hq, hps, hat, hap⟩ := h
  have hf := handleQueueing_fields s m
  refine ⟨?_, ?_, ?_, ?_, ?_⟩
  · rw [hf.1]; exact hra
  · rcases handleQueueing_queues s m with h1 | h1
    · rw [h1]; exact hq
    · rw [h1]; exact pushQueue_coherent m hq
  · rw [hf.2.1, hf.2.2.2.2]; exact hps
  · rw [hf.2.2.1, hf.2.2.2.2]; exact hat
  · rw [hf.2.2.2.1, hf.2.2.2.2]; exact hap

/-- Every transition other than a hook clearing the per-transport
`requiresAuthentication` flag preserves the authorization invariant. -/
theorem tStep_inv (s : TState) (e : TEvent)
    (he : e ≠ TEvent.hookSetRequiresAuth false) (h : TInvAuth s) :
    TInvAuth (tStep s e) := by
  obtain ⟨hra, hq, hps, hat, hap⟩ := h
  cases e with
  | recv m =>
    by_cases hcl : s.closed
    · simp only [tStep, if_pos hcl]
      exact ⟨hra, hq, hps, hat, hap⟩
    · by_cases hatt : m.doc ∈ s.attachedDocs
      · simp only [tStep, if_neg hcl, if_pos hatt]
        refine ⟨hra, hq, hps, hat, ?_⟩
        intro m1 hm1
        rcases List.mem_append.mp hm1 with hm1 | hm1
        · exact hap m1 hm1
        · simp only [List.mem_singleton] at hm1
          subst hm1
          exact hat _ hatt
      · simp only [tStep, if_neg hcl, if_neg hatt]
        cases hlu : lookupKey s.queues m.doc with
        | some q =>
          simp only [hlu]
          exact handleQueueing_inv s m ⟨hra, hq, hps, hat, hap⟩
        | none =>
          simp only [hlu]
          refine handleQueueing_inv _ m ⟨?_, ?_, ?_, ?_, ?_⟩
          · exact hra
          · exact insertKeyNil_coherent m.doc hq
          · exact hps
          · exact hat
          · exact hap
  | connectResolve doc ok =>
    by_cases hmem : doc ∈ s.pendingConnect
    · simp only [tStep, if_pos hmem]
      cases ok with
      | true =>
        rw [if_pos rfl, if_pos (Or.inl hra)]
        exact ⟨hra, hq, hps, hat, hap⟩
      | false =>
        rw [if_neg (by simp)]
        exact ⟨hra, hq, hps, hat, hap⟩
    · simp only [tStep, if_neg hmem]
      exact ⟨hra, hq, hps, hat, hap⟩
  | authResolve doc ok =>
    by_cases hmem : doc ∈ s.pendingAuth
    · simp only [tStep, if_pos hmem]
      cases ok with
      | true =>
        rw [if_pos rfl]
        refine ⟨hra, hq, ?_, ?_, ?_⟩
        · intro d hd
          rcases List.mem_cons.mp hd with rfl | hd
          · exact List.mem_cons_self _ _
          · exact List.mem_cons_of_mem _ (hps d hd)
        · intro d hd
          exact List.mem_cons_of_mem _ (hat d hd)
        · intro m1 hm1
          exact List.mem_cons_of_mem _ (hap m1 hm1)
      | false =>
        rw [if_neg (by simp)]
        split
        · exact ⟨hra, hq, hps, hat, hap⟩
        · exact ⟨hra, hq, hps, hat, hap⟩
    · simp only [tStep, if_neg hmem]
      exact ⟨hra, hq, hps, hat, hap⟩
  | setupComplete doc =>
    by_cases hmem : doc ∈ s.pendingSetup
    · simp only [tStep, if_pos hmem]
      refine ⟨hra, hq, ?_, ?_, ?_⟩
      · intro d hd
        exact hps d (List.Sublist.subset (List.erase_sublist _ _) hd)
      · intro d hd
        rcases List.mem_cons.mp hd with rfl | hd
        · exact hps _ hmem
        · exact hat d hd
      · intro m1 hm1
        rcases List.mem_append.mp hm1 with hm1 | hm1
        · exact hap m1 hm1
        · have hd := hq doc m1 hm1
          rw [hd]
          exact hps doc hmem
    · simp only [tStep, if_neg hmem]
      exact ⟨hra, hq, hps, hat, hap⟩
  | connClose doc =>
    by_cases hmem : doc ∈ s.attachedDocs
    · simp only [tStep, if_pos hmem]
      refine ⟨hra, eraseKey_coherent doc hq, hps, ?_, hap⟩
      intro d hd
      exact hat d (List.Sublist.subset (List.erase_sublist _ _) hd)
    · simp only [tStep, if_neg hmem]
      exact ⟨hra, hq, hps, hat, hap⟩
  | hookSetRequiresAuth b =>
    cases b with
    | false => exact absurd rfl he
    | true => exact ⟨rfl, hq, hps, hat, hap⟩

/-- The authorization invariant holds along every interleaving of a
transport that starts with authentication required, as long as no hook
clears the per-transport `requiresAuthentication` flag. -/
theorem tRun_inv (events : List TEvent)
    (hno : TEvent.hookSetRequiresAuth false ∉ events) :
    TInvAuth (tRun true events) := by
  have hgen : ∀ (evs : List TEvent) (s : TState),
      TEvent.hookSetRequiresAuth false ∉ evs → TInvAuth s →
      TInvAuth (evs.foldl tStep s) := by
    intro evs
    induction evs with
    | nil => intro s _ hs; exact hs
    | cons e rest ih =>
      intro s hno1 hs
      have he : e ≠ TEvent.hookSetRequiresAuth false := fun hd =>
        hno1 (by rw [← hd]; exact List.mem_cons_self _ _)
      have hrest : TEvent.hookSetRequiresAuth false ∉ rest := fun hd =>
        hno1 (List.mem_cons_of_mem _ hd)
      exact ih (tStep s e) hrest (tStep_inv s e he hs)
  refine hgen events (tInit true) hno ⟨rfl, ?_, ?_, ?_, ?_⟩
  · intro name m hm
    simp [tInit, lookupKey] at hm
  · intro d hd
    simp [tInit] at hd
  · intro d hd
    simp [tInit] at hd
  · intro m hm
    simp [tInit] at hm

/-- C2 counterexample: a server on which some extension defines
`onAuthenticate` (the transport starts with `requiresAuthentication` true);
a Sync message for `"d"` arrives and is queued while `onConnect` starts; the
`onConnect` hook clears `connection.requiresAuthentication` through the
shared `ConnectionConfiguration`; the `onConnect` success path (source line
548) then re-reads the cleared flag and runs `setUpNewConnection`, which
replays the queued Sync into the Connection — while `onAuthenticate` was
never even started, let alone resolved.  This refutes the claim as
stated. -/
theorem hocuspocus_sync_applied_without_auth :
    (Msg.mk "d" MsgType.sync)
      ∈ (tRun true [TEvent.recv ⟨"d", MsgType.sync⟩,
          TEvent.hookSetRequiresAuth false, TEvent.connectResolve "d" true,
          TEvent.setupComplete "d"]).applied
    ∧ (tRun true [TEvent.recv ⟨"d", MsgType.sync⟩,
        TEvent.hookSetRequiresAuth false, TEvent.connectResolve "d" true,
        TEvent.setupComplete "d"]).authOk = []
    ∧ (tRun true [TEvent.recv ⟨"d", MsgType.sync⟩,
        TEvent.hookSetRequiresAuth false, TEvent.connectResolve "d" true,
        TEvent.setupComplete "d"]).authStarts = [] := by
  decide

/-- C2 amended: on a server where some extension defines `onAuthenticate`
(the transport's `ConnectionConfiguration` starts with
`requiresAuthentication` true), and provided no hook clears the
per-transport `requiresAuthentication` flag during the handshake, no Sync
message from the transport is applied to a Document before the transport's
`onAuthenticate` chain for the message's document has resolved successfully:
along every such interleaving, every applied Sync message belongs to a name
in the success history of `onAuthenticate`.  (Pre-attach messages are
queued; `setUpNewConnection` replays the queue only after `onAuthenticate`
resolves; and the `onConnect` success path never sets up the connection
while the flag it re-reads is still set.) -/
theorem hocuspocus_no_sync_before_auth (events : List TEvent)
    (hno : TEvent.hookSetRequiresAuth false ∉ events) (m : Msg)
    (hm : m ∈ (tRun true events).applied) (ht : m.type = MsgType.sync) :
    m.doc ∈ (tRun true events).authOk :=
  (tRun_inv events hno).2.2.2.2 m hm

/-- Witness for the amended C2: a transport authenticates for document
`"d"`, attaches, then delivers a Sync message, which is applied with `"d"`
authenticated. -/
theorem hocuspocus_no_sync_before_auth_witness :
    (Msg.mk "d" MsgType.sync).doc
      ∈ (tRun true [TEvent.recv ⟨"d", MsgType.auth⟩, TEvent.authResolve "d" true,
          TEvent.setupComplete "d", TEvent.recv ⟨"d", MsgType.sync⟩]).authOk :=
  hocuspocus_no_sync_before_auth
    [TEvent.recv ⟨"d", MsgType.auth⟩, TEvent.authResolve "d" true,
      TEvent.setupComplete "d", TEvent.recv ⟨"d", MsgType.sync⟩]
    (by decide) ⟨"d", MsgType.sync⟩ (by decide) rfl

/-- The at-most-once bookkeeping for `onAuthenticate`: each name started the
hook chain at most once, and a started name still holds its
`connectionEstablishing` flag. -/
def AuthOnce (starts est : List String) : Prop :=
  ∀ name, starts.count name ≤ 1 ∧ (1 ≤ starts.count name → name ∈ est)

/-- `handleQueueingMessage` starts `onAuthenticate` only for a name without
the `connectionEstablishing` flag, and sets the flag in the same synchronous
step — preserving the at-most-once bookkeeping. -/
theorem handleQueueing_authOnce (s : TState) (m : Msg)
    (h : AuthOnce s.authStarts s.establishing) :
    AuthOnce (handleQueueing s m).authStarts (handleQueueing s m).establishing := by
  unfold handleQueueing
  split
  · next hc =>
    intro name
    by_cases hn : name = m.doc
    · rw [hn]
      have hzero : s.authStarts.count m.doc = 0 := by
        by_contra hnz
        exact hc.2 ((h m.doc).2 (by omega))
      refine ⟨?_, fun _ => List.mem_cons_self _ _⟩
      simp [List.count_cons_self, hzero]
    · have hne : ¬(m.doc = name) := fun hc1 => hn hc1.symm
      have hcount : (m.doc :: s.authStarts).count name = s.authStarts.count name := by
        simp [List.count_cons, hne]
      refine ⟨?_, ?_⟩
      · rw [hcount]
        exact (h name).1
      · intro hge
        rw [hcount] at hge
        exact List.mem_cons_of_mem _ ((h name).2 hge)
  · exact h

/-- Every transition other than a connection close preserves the
at-most-once bookkeeping (connection close deletes the
`connectionEstablishing` entry — source line 424). -/
theorem tStep_authOnce (s : TState) (e : TEvent)
    (he : ∀ d, e ≠ TEvent.connClose d)
    (h : AuthOnce s.authStarts s.establishing) :
    AuthOnce (tStep s e).authStarts (tStep s e).establishing := by
  cases e with
  | recv m =>
    by_cases hcl : s.closed
    · simp only [tStep, if_pos hcl]
      exact h
    · by_cases hatt : m.doc ∈ s.attachedDocs
      · simp only [tStep, if_neg hcl, if_pos hatt]
        exact h
      · simp only [tStep, if_neg hcl, if_neg hatt]
        cases hlu : lookupKey s.queues m.doc with
        | some q =>
          simp only [hlu]
          exact handleQueueing_authOnce s m h
        | none =>
          simp only [hlu]
          exact handleQueueing_authOnce _ m h
  | connectResolve doc ok =>
    by_cases hmem : doc ∈ s.pendingConnect
    · simp only [tStep, if_pos hmem]
      cases ok with
      | true =>
        rw [if_pos rfl]
        split
        · exact h
        · intro name
          refine ⟨(h name).1, ?_⟩
          intro hge
          exact List.mem_cons_of_mem _ ((h name).2 hge)
      | false =>
        rw [if_neg (by simp)]
        exact h
    · simp only [tStep, if_neg hmem]
      exact h
  | authResolve doc ok =>
    by_cases hmem : doc ∈ s.pendingAuth
    · simp only [tStep, if_pos hmem]
      cases ok with
      | true =>
        rw [if_pos rfl]
        exact h
      | false =>
        rw [if_neg (by simp)]
        split
        · exact h
        · exact h
    · simp only [tStep, if_neg hmem]
      exact h
  | setupComplete doc =>
    by_cases hmem : doc ∈ s.pendingSetup
    · simp only [tStep, if_pos hmem]
      exact h
    · simp only [tStep, if_neg hmem]
      exact h
  | connClose doc =>
    exact absurd rfl (he doc)
  | hookSetRequiresAuth b =>
    exact h

/-- Along every interleaving without a connection close, the at-most-once
bookkeeping holds (whatever the initial authentication requirement, and
whatever hooks do to the flag). -/
theorem tRun_authOnce (ra : Bool) (events : List TEvent)
    (hno : ∀ d, TEvent.connClose d ∉ events) :
    AuthOnce (tRun ra events).authStarts (tRun ra events).establishing := by
  have hgen : ∀ (evs : List TEvent) (s : TState),
      (∀ d, TEvent.connClose d ∉ evs) → AuthOnce s.authStarts s.establishing →
      AuthOnce ((evs.foldl tStep s)).authStarts
        ((evs.foldl tStep s)).establishing := by
    intro evs
    induction evs with
    | nil => intro s _ hs; exact hs
    | cons e rest ih =>
      intro s hno1 hs
      have he : ∀ d, e ≠ TEvent.connClose d := fun d hd =>
        hno1 d (by rw [← hd]; exact List.mem_cons_self _ _)
      have hrest : ∀ d, TEvent.connClose d ∉ rest := fun d hd =>
        hno1 d (List.mem_cons_of_mem _ hd)
      exact ih (tStep s e) hrest (tStep_authOnce s e he hs)
  refine hgen events (tInit ra) hno ?_
  intro name
  constructor
  · simp [tInit]
  · intro hge
    simp [tInit] at hge

/-- C9 counterexample: on one transport, documents `"d1"` and `"d2"` both
attach after authenticating; the `Connection` for `"d2"` then closes (the
transport stays open because `"d1"` is still attached), deleting the
`connectionEstablishing` entry for `"d2"` — so a second Auth message for
`"d2"` starts `onAuthenticate` a second time.  Two Auth messages on the same
transport for the same document hence can cause two `onAuthenticate` runs,
refuting the claim's unconditional "never". -/
theorem hocuspocus_two_auth_runs_after_reattach :
    (tRun true [TEvent.recv ⟨"d1", MsgType.auth⟩, TEvent.authResolve "d1" true,
      TEvent.setupComplete "d1", TEvent.recv ⟨"d2", MsgType.auth⟩,
      TEvent.authResolve "d2" true, TEvent.setupComplete "d2",
      TEvent.connClose "d2",
      TEvent.recv ⟨"d2", MsgType.auth⟩]).authStarts.count "d2" = 2 := by
  decide

/-- C9 amended: an Auth message arriving while `connectionEstablishing` is
already set for its document name is appended to the per-document queue
instead of triggering authentication again, and along every interleaving in
which no Connection for the transport closes, the `onAuthenticate` chain is
started at most once per document name.  (After a Connection for a name
closes — deleting that name's `connectionEstablishing` entry — a later Auth
message for the same name can start the chain again.) -/
theorem hocuspocus_auth_started_once_without_close (ra : Bool)
    (events : List TEvent) (hno : ∀ d, TEvent.connClose d ∉ events)
    (name : String) :
    (tRun ra events).authStarts.count name ≤ 1
    ∧ (∀ s m, m.type = MsgType.auth → m.doc ∈ s.establishing →
        handleQueueing s m = { s with queues := pushQueue s.queues m.doc m }) := by
  constructor
  · exact ((tRun_authOnce ra events hno) name).1
  · intro s m _ hmem
    unfold handleQueueing
    rw [if_neg (fun hc => hc.2 hmem)]

/-- Witness for the amended C9 on a close-free interleaving. -/
theorem hocuspocus_auth_once_witness :
    (tRun true [TEvent.recv ⟨"d", MsgType.auth⟩]).authStarts.count "d" ≤ 1 :=
  (hocuspocus_auth_started_once_without_close true
    [TEvent.recv ⟨"d", MsgType.auth⟩]
    (by intro d hd; simp at hd) "d").1
